import Mathlib

/-!
Verification of the grip-on-software deployer against its specification.

The development shallowly embeds the Python sources:
  * `deployment/deployment.py` — the `Deployments` set (an insertion-ordered
    dict keyed by the deployment name) and `Deployment.check_jenkins`;
  * `deployment/task.py` — the background `Deploy_Task` pipeline with its
    publish/stop protocol;
  * `deployment/deployer.py` — the controller: `deploy` admission,
    `_set_deploy_progress`, `_check_old_secrets` and the `edit` handler.

Python dicts are embedded as insertion-ordered association lists (Python
dicts never hold duplicate keys, so replace-first update and first-match
lookup coincide with dict semantics), JSON values of deployment
configurations as the inductive `Value`, exceptions as `Except`, and the
cherrypy event bus as an explicit event trace.
-/

/-- A JSON-serialisable Python value as it occurs in deployment
configurations: strings, booleans, lists of strings, and ordered
string-to-string mappings (`secret_files`). -/
inductive Value where
  | vStr (s : String)
  | vBool (b : Bool)
  | vList (l : List String)
  | vMap (m : List (String × String))
deriving DecidableEq, Repr

/-- The `_config` dict of a `Deployment` object: an insertion-ordered mapping
from field names to values. -/
abbrev Config := List (String × Value)

/-- Python dict lookup `d[k]` (first match; dicts are duplicate-free). -/
def lookupD {β : Type} : List (String × β) → String → Option β
  | [], _ => none
  | p :: rest, k => if p.1 = k then some p.2 else lookupD rest k

/-- Python dict assignment `d[k] = v` on an insertion-ordered dict embedded
as an association list: an existing key keeps its position and gets the new
value, a new key is appended at the end. -/
def dictSet {β : Type} : List (String × β) → String → β → List (String × β)
  | [], k, v => [(k, v)]
  | p :: rest, k, v => if p.1 = k then (k, v) :: rest else p :: dictSet rest k v

theorem dictSet_lookup_self {β : Type} (m : List (String × β)) (k : String)
    (v : β) : lookupD (dictSet m k v) k = some v := by
  induction m with
  | nil => simp [dictSet, lookupD]
  | cons p rest ih =>
    by_cases hp : p.1 = k
    · simp [dictSet, lookupD, hp]
    · simp [dictSet, lookupD, hp, ih]

theorem dictSet_lookup_other {β : Type} (m : List (String × β)) (k k' : String)
    (v : β) (h : k' ≠ k) : lookupD (dictSet m k v) k' = lookupD m k' := by
  have hkk : ¬ (k = k') := fun hc => h hc.symm
  induction m with
  | nil => simp [dictSet, lookupD, hkk]
  | cons p rest ih =>
    by_cases hp : p.1 = k
    · have hne : ¬ (p.1 = k') := fun hc => h (hc.symm.trans hp)
      simp [dictSet, hp, lookupD, hne, hkk]
    · by_cases hp' : p.1 = k'
      · simp [dictSet, hp, lookupD, hp', hkk, h]
      · simp [dictSet, hp, lookupD, hp', ih]

/-- `dictSet` on a dict whose keys avoid `k` appends `(k, v)` at the end. -/
theorem dictSet_append {β : Type} (m : List (String × β)) (k : String) (v : β)
    (h : ∀ p ∈ m, p.1 ≠ k) : dictSet m k v = m ++ [(k, v)] := by
  induction m with
  | nil => rfl
  | cons p rest ih =>
    have hp : p.1 ≠ k := h p (by simp)
    simp only [dictSet, hp, if_false, List.cons_append, List.cons.injEq,
      true_and]
    exact ih fun q hq => h q (by simp [hq])

theorem lookupD_append_left {β : Type} {m : List (String × β)} {k : String}
    {v : β} (h : lookupD m k = some v) (m' : List (String × β)) :
    lookupD (m ++ m') k = some v := by
  induction m with
  | nil => simp [lookupD] at h
  | cons p rest ih =>
    by_cases hp : p.1 = k
    · simpa [lookupD, hp] using h
    · simp only [lookupD, hp, if_false] at h
      simpa [lookupD, hp] using ih h

/-! ## `deployment/deployment.py` — the `Deployments` set

`Deployments` stores `Deployment` objects in the dict `self._deployments`
keyed by `deployment["name"]`.  We embed the store as an insertion-ordered
association list from the name value to the deployment's `_config` dict.
A `KeyError` (missing `"name"` key, or `get` on an unknown name) is embedded
as `Except.error ()`. -/

/-- The store `self._deployments`: name value to `_config`, insertion order. -/
abbrev DepMap := List (Value × Config)

/-- An argument accepted by `Deployments._convert`: either a plain name value
or a dict / `Deployment` (both carry a `_config` dict, so they convert to the
same thing). -/
inductive DeployArg where
  | byName (v : Value)
  | byDict (c : Config)
deriving DecidableEq, Repr

namespace Deployments

/-- `Deployments._convert`: a `Deployment` is returned as is (its `_config`),
a dict becomes `Deployment(**data)`, anything else becomes
`Deployment(name=data)`. -/
def convert : DeployArg → Config
  | .byName v => [("name", v)]
  | .byDict c => c

/-- `deployment["name"]` on the converted argument (`none` embeds the
`KeyError` raised when the dict lacks a `"name"` key). -/
def argName (a : DeployArg) : Option Value :=
  lookupD (convert a) "name"

/-- Lookup of a name value in the store `self._deployments`. -/
def findName : DepMap → Value → Option Config
  | [], _ => none
  | p :: rest, n => if p.1 = n then some p.2 else findName rest n

/-- `name in self._deployments`. -/
def containsName (d : DepMap) (n : Value) : Bool :=
  (findName d n).isSome

/-- `Deployments.__contains__`. -/
def contains (d : DepMap) (a : DeployArg) : Except Unit Bool :=
  match argName a with
  | none => .error ()
  | some n => .ok (containsName d n)

/-- `Deployments.get`. -/
def get (d : DepMap) (a : DeployArg) : Except Unit Config :=
  match argName a with
  | none => .error ()
  | some n =>
    match findName d n with
    | none => .error ()
    | some c => .ok c

/-- `Deployments.add`: duplicate names are silently ignored, otherwise the
converted deployment is stored under its name. -/
def add (d : DepMap) (a : DeployArg) : Except Unit DepMap :=
  match argName a with
  | none => .error ()
  | some n => .ok (if containsName d n then d else d ++ [(n, convert a)])

/-- `Deployments.discard`: missing names are silently ignored, otherwise
`del self._deployments[name]`. -/
def discard (d : DepMap) (a : DeployArg) : Except Unit DepMap :=
  match argName a with
  | none => .error ()
  | some n =>
    .ok (if containsName d n then d.filter (fun p => decide (p.1 ≠ n)) else d)

/-- The schema `Deployer.FIELDS` of `deployment/deployer.py`, reduced to the
data `read` consumes: the field name and the optional `"default"` entry of
the field configuration. -/
def FIELDS : List (String × Option Value) :=
  [("name", none),
   ("git_path", none),
   ("git_url", none),
   ("git_branch", some (Value.vStr "master")),
   ("jenkins_job", none),
   ("jenkins_git", some (Value.vBool true)),
   ("jenkins_states", some (Value.vList ["SUCCESS"])),
   ("artifacts", none),
   ("deploy_key", none),
   ("script", none),
   ("services", none),
   ("bigboat_url", none),
   ("bigboat_key", none),
   ("bigboat_compose", none),
   ("secret_files", none)]

/-- The per-config loop of `Deployments.read`: each schema field missing from
the stored config is assigned `field_config.get("default", '')`, which
appends it to the ordered dict. -/
def expandConfig (flds : List (String × Option Value)) (c : Config) : Config :=
  flds.foldl
    (fun acc f =>
      if (lookupD acc f.1).isSome then acc
      else dictSet acc f.1 (f.2.getD (Value.vStr "")))
    c

/-- `Deployments.write`: the JSON document is the array of the stored
`_config` dicts in insertion order (`json.dump` / `json.load` with
`object_pairs_hook=OrderedDict` are the identity on this value domain). -/
def write (d : DepMap) : List Config :=
  d.map Prod.snd

/-- `Deployments.__init__` / construction from a list of configs: each config
is `add`ed in order; a config without a `"name"` raises. -/
def build : List Config → DepMap → Except Unit DepMap
  | [], d => .ok d
  | c :: cs, d =>
    match add d (.byDict c) with
    | .error e => .error e
    | .ok d' => build cs d'

/-- `Deployments.read`: `none` stands for a missing file (`cls([])`);
otherwise every config is expanded with the schema defaults and the set is
built from the expanded configs. -/
def read (file : Option (List Config)) (flds : List (String × Option Value)) :
    Except Unit DepMap :=
  match file with
  | none => .ok []
  | some configs => build (configs.map (expandConfig flds)) []

end Deployments

/-! ## `deployment/deployer.py` — controller state and handlers -/

/-- `itertools.zip_longest` on two lists, padding the shorter with `None`. -/
def zipLongest {α β : Type} : List α → List β → List (Option α × Option β)
  | [], [] => []
  | [], y :: ys => (none, some y) :: zipLongest [] ys
  | x :: xs, [] => (some x, none) :: zipLongest xs []
  | x :: xs, y :: ys => (some x, some y) :: zipLongest xs ys

/-- `os.path.join(old_path, secret_file)` for the paths this program builds. -/
def pathJoin (p f : String) : String :=
  if p = "" then f else p ++ "/" ++ f

namespace Deployer

/-- The loop of `Deployer._check_old_secrets` that fills the `new_secrets`
ordered dict: pairs `(new_name, old_name)` from
`zip_longest(secret_names, old_names)`; an empty new name is skipped
(`continue`), a new name with no old counterpart gets content `''`, and a
present pair copies `old_secrets[old_name]` (which always succeeds, hence the
defaulted lookup). -/
def checkOldSecretsGo (old_secrets : List (String × String)) :
    List (Option String × Option String) → List (String × String) →
    List (String × String)
  | [], acc => acc
  | (nw, od) :: rest, acc =>
    match nw with
    | none => checkOldSecretsGo old_secrets rest acc
    | some n =>
      if n = "" then checkOldSecretsGo old_secrets rest acc
      else
        match od with
        | none => checkOldSecretsGo old_secrets rest (dictSet acc n "")
        | some o =>
          checkOldSecretsGo old_secrets rest
            (dictSet acc n ((lookupD old_secrets o).getD ""))

/-- `Deployer._check_old_secrets` — the returned `new_secrets` mapping. -/
def check_old_secrets (secret_names : List String)
    (old_secrets : List (String × String)) : List (String × String) :=
  checkOldSecretsGo old_secrets
    (zipLongest secret_names (old_secrets.map Prod.fst)) []

/-- The file-removal side effect of `Deployer._check_old_secrets`: when
`old_names != secret_names`, every `os.path.join(old_path, secret_file)` that
`os.path.isfile` accepts is passed to `os.remove`. -/
def removed_secret_files (secret_names : List String)
    (old_secrets : List (String × String)) (old_path : String)
    (isfile : String → Bool) : List String :=
  if (old_secrets.map Prod.fst) ≠ secret_names then
    ((old_secrets.map Prod.fst).map (pathJoin old_path)).filter isfile
  else []

/-- The reconciliation mapping as the specification words it, by position:
an empty new name is discarded; a position past the end of `old[]` gets
empty content; a position present in both lists carries the old content at
that position forward; positions of `old[]` past the end of `new[]` drop
out.  (`specSecretsZip_eq_zip` below restates this as a filter of the
positional zip.) -/
def specSecretsZip : List String → List (String × String) →
    List (String × String)
  | [], _ => []
  | n :: news, [] =>
    if n = "" then specSecretsZip news []
    else (n, "") :: specSecretsZip news []
  | n :: news, oc :: olds =>
    if n = "" then specSecretsZip news olds
    else (n, oc.2) :: specSecretsZip news olds

/-- `specSecretsZip` is literally a positional zip of `new[]` against
`old[]` keeping, for each position with a non-empty new name, that name
paired with the old content at the position (empty when there is none). -/
theorem specSecretsZip_eq_zip (secret_names : List String)
    (old_secrets : List (String × String)) :
    specSecretsZip secret_names old_secrets
      = (zipLongest secret_names old_secrets).filterMap fun p =>
          match p.1 with
          | none => none
          | some n =>
            if n = "" then none
            else some (n, ((p.2.map Prod.snd).getD "")) := by
  induction secret_names generalizing old_secrets with
  | nil =>
    induction old_secrets with
    | nil => simp [zipLongest, specSecretsZip]
    | cons oc olds ih => simpa [zipLongest, specSecretsZip] using ih
  | cons n news ih =>
    cases old_secrets with
    | nil =>
      by_cases hn : n = "" <;>
        simp [zipLongest, specSecretsZip, hn, ih]
    | cons oc olds =>
      by_cases hn : n = "" <;>
        simp [zipLongest, specSecretsZip, hn, ih]

/-- A per-deployment progress record of `self._deploy_progress`; `thread` is
the worker handle (`None` once the slot is observable-only). -/
structure Progress where
  state : String
  message : String
  thread : Option Nat
deriving DecidableEq, Repr

/-- The progress registry `self._deploy_progress`. -/
abbrev PMap := List (String × Progress)

/-- `Deployer._set_deploy_progress`: the entry for `name` is overwritten with
the event's state and message, keeping the previously stored thread handle,
which is then dropped when the state is `success` or `error`.  Reading
`self._deploy_progress[name]['thread']` raises a `KeyError` (`none`) when no
entry exists. -/
def set_deploy_progress (m : PMap) (name state message : String) :
    Option PMap :=
  match lookupD m name with
  | none => none
  | some old =>
    let entry := Progress.mk state message old.thread
    let entry :=
      if state = "success" ∨ state = "error" then
        Progress.mk state message none
      else entry
    some (dictSet m name entry)

/-- Outcome of the `deploy` handler. -/
inductive DeployOutcome where
  | notFound
  | redirectList
  | progressPage (state message : String)
  | alreadyUnderway
  | started
deriving DecidableEq, Repr

/-- `Deployer.deploy`: after `_find_deployment` (404 when the name is
unknown), a non-POST either renders the known progress record or redirects
to the list; a POST refuses when `self._deploy_progress.get(name,
{'thread': None})['thread']` is non-`None` ("already underway"), and
otherwise registers a `starting` entry holding the freshly constructed
`Deploy_Task` and starts it.  The returned `Bool` records whether a
`Deploy_Task` was constructed and started. -/
def deploy (deployments : List String) (m : PMap) (isPost : Bool)
    (name : String) (tid : Nat) : PMap × DeployOutcome × Bool :=
  if ¬ deployments.contains name then (m, .notFound, false)
  else if ¬ isPost then
    match lookupD m name with
    | some p => (m, .progressPage p.state p.message, false)
    | none => (m, .redirectList, false)
  else
    match (match lookupD m name with
           | some p => p.thread
           | none => none) with
    | some _ => (m, .alreadyUnderway, false)
    | none =>
      (dictSet m name (Progress.mk "starting" "Thread is starting" (some tid)),
       .started, true)

/-- The worker handle the `deploy` POST admission consults:
`self._deploy_progress.get(name, {'thread': None})['thread']`. -/
def workerOf (m : PMap) (name : String) : Option Nat :=
  match lookupD m name with
  | some p => p.thread
  | none => none

/-- Outcome of the `edit` handler (the successful POST pipeline and the
rendered form are collapsed into `editPage`). -/
inductive EditOutcome where
  | redirectList
  | httpError (status : Nat) (message : String)
  | editPage (posted : Bool)
deriving DecidableEq, Repr

/-- `Deployer.edit`: without `name` it redirects to the list; a POST runs
`_find_deployment(old_name)` — when `old_name` is absent the lookup key is
`None`, which is not a stored name, so the `KeyError` is mapped to
`HTTPError(404, 'Deployment None does not exist')`; a GET loads the
deployment by `name` (404 when absent). -/
def edit (deployments : List String) (name old_name : Option String)
    (isPost : Bool) : EditOutcome :=
  match name with
  | none => .redirectList
  | some n =>
    if isPost then
      match old_name with
      | none => .httpError 404 "Deployment None does not exist"
      | some o =>
        if deployments.contains o then .editPage true
        else .httpError 404 ("Deployment " ++ o ++ " does not exist")
    else
      if deployments.contains n then .editPage false
      else .httpError 404 ("Deployment " ++ n ++ " does not exist")

end Deployer

/-! ## `deployment/task.py` and `Deployment.check_jenkins`

The deployment snapshot that `Deploy_Task` reads is embedded as a typed
record: each optional field is `none` when the key is absent from the
`_config` dict (`d["k"]` on an absent key raises `KeyError`; `d.get("k", v)`
yields the default).  `jenkins_git` and `artifacts` store the truthiness of
the configured value, mirroring how the source only ever tests them. -/

/-- The deployment snapshot owned by a `Deploy_Task`. -/
structure Deployment where
  name : String
  git_url : Option String := none
  git_path : Option String := none
  git_branch : Option String := none
  deploy_key : Option String := none
  jenkins_job : Option String := none
  jenkins_git : Option Bool := none
  jenkins_states : Option (List String) := none
  artifacts : Option Bool := none
  script : Option String := none
  services : Option (List String) := none
  bigboat_url : Option String := none
  bigboat_key : Option String := none
  bigboat_compose : Option String := none
  secret_files : Option (List (String × String)) := none
deriving DecidableEq, Repr

/-- The exceptions that can cross a pipeline step boundary: `ValueError`,
`RuntimeError`, `KeyError` from unguarded dict indexing, an uncaught
`IOError`, and `Thread_Interrupt`. -/
inductive TaskExc where
  | valueError (msg : String)
  | runtimeError (msg : String)
  | keyError (key : String)
  | ioError (msg : String)
  | interrupt
deriving DecidableEq, Repr

/-- The state tag of a published `deploy` event. -/
inductive EvState where
  | progress
  | success
  | error
deriving DecidableEq, Repr

/-- One event published on the cherrypy bus by `Deploy_Task._publish`. -/
structure Event where
  state : EvState
  message : String
deriving DecidableEq, Repr

/-- Result of running a task computation: the Python outcome, the number of
`_publish` calls attempted, and the events actually delivered to the bus. -/
structure Out (α : Type) where
  res : Except TaskExc α
  pubs : Nat
  evs : List Event
deriving Repr

/-- The task execution monad.  The first argument is the stop schedule: the
cooperative stop flag is set by another thread and, once set, stays set; the
only points observing it are `_publish` calls, so a schedule is fully
described by the index of the first `_publish` attempt that sees the flag
(`none` when `stop()` is never called).  The second argument counts the
`_publish` attempts made so far. -/
def M (α : Type) : Type := Option Nat → Nat → Out α

/-- Whether the stop flag is visible at publish attempt `n`. -/
def stopSeen (sa : Option Nat) (n : Nat) : Bool :=
  match sa with
  | none => false
  | some k => decide (k ≤ n)

def M.pure {α : Type} (a : α) : M α := fun _ _ => ⟨.ok a, 0, []⟩

def M.bind {α β : Type} (ma : M α) (f : α → M β) : M β := fun sa n =>
  let o := ma sa n
  match o.res with
  | .error e => ⟨.error e, o.pubs, o.evs⟩
  | .ok a =>
    let o2 := f a sa (n + o.pubs)
    ⟨o2.res, o.pubs + o2.pubs, o.evs ++ o2.evs⟩

instance : Monad M where
  pure := M.pure
  bind := M.bind

/-- Lift the outcome of an external call (or a plain exception) into the
task monad: no publish, no event. -/
def liftE {α : Type} (e : Except TaskExc α) : M α := fun _ _ => ⟨e, 0, []⟩

/-- Unguarded dict indexing `self._deployment[key]`. -/
def liftKey {α : Type} (key : String) (v : Option α) : M α :=
  match v with
  | some a => liftE (.ok a)
  | none => liftE (.error (.keyError key))

/-- `Deploy_Task._publish`: raise `Thread_Interrupt` when the stop flag is
set, otherwise deliver the event to the bus. -/
def publishM (st : EvState) (msg : String) : M Unit := fun sa n =>
  if stopSeen sa n then ⟨.error .interrupt, 1, []⟩
  else ⟨.ok (), 1, [⟨st, msg⟩]⟩

/-- Sequence a loop body over a list (a Python `for` statement). -/
def seqList {α : Type} : List α → (α → M Unit) → M Unit
  | [], _ => M.pure ()
  | x :: xs, f => M.bind (f x) (fun _ => seqList xs f)

/-- A Jenkins build as `check_jenkins` and `_add_artifacts` consume it. -/
structure Build where
  building : Bool
  result : String
  artifacts : Option (List String)
deriving DecidableEq, Repr

/-- The per-branch build record `branch_build`: its revision SHA and the
names under `revision.branch`. -/
structure BranchBuild where
  sha1 : String
  branchNames : List String
deriving DecidableEq, Repr

/-- A (branch-resolved) Jenkins job: `get_last_branch_build(branch)` yields
`(build, branch_build)` or nothing for that branch key. -/
structure BranchJob where
  lastBranchBuild : String → Option (Build × BranchBuild)

/-- A Jenkins job as `jenkins.get_job` returns it: a multibranch pipeline
job descends into the child job named after the branch. -/
structure JenkinsJob where
  hasChildJobs : Bool
  childJob : String → BranchJob
  mainJob : BranchJob

/-- Outcomes of all external calls the pipeline makes, fixed ahead of the
run (the embedding of the network, filesystem, subprocesses and the BigBoat
client). -/
structure World where
  jenkinsJob : String → JenkinsJob
  isUpToDate : String → String → Bool
  gitRefresh : Except TaskExc Unit
  artifactFetch : String → Except TaskExc Unit
  secretWrite : String → String → Option String
  scriptResult : Option String
  serviceRestartOk : String → Bool
  composeUnchanged : Bool
  appExists : Bool
  registerAppOk : Bool
  updateComposeOk : String → Bool

/-- `Deployment.get_source`: `ValueError` when `git_url` is absent; reading
`self._config["deploy_key"]` raises `KeyError` when absent. -/
def getSource (d : Deployment) : Except TaskExc Unit :=
  match d.git_url with
  | none => .error (.valueError "Cannot retrieve Git repository: misconfiguration")
  | some _ =>
    match d.deploy_key with
    | none => .error (.keyError "deploy_key")
    | some _ => .ok ()

/-- The branch scan of `check_jenkins`: try the branch key itself, then
`'origin/' + branch`, and keep the first key that yields a build. -/
def firstBranchBuild (job : BranchJob) (branch : String) :
    Option (Build × BranchBuild) :=
  match job.lastBranchBuild branch with
  | some p => some p
  | none => job.lastBranchBuild ("origin/" ++ branch)

/-- `Deployment.check_jenkins`, line by line: resolve the source, look up
the job (descending into the branch child of a multibranch pipeline), scan
the two branch keys, reject merge-request builds, check staleness against
the upstream HEAD only when `jenkins_git` is truthy, then reject unfinished
builds and results outside `jenkins_states`. -/
def check_jenkins (d : Deployment) (w : World) : Except TaskExc Build :=
  match getSource d with
  | .error e => .error e
  | .ok _ =>
    match d.jenkins_job with
    | none => .error (.keyError "jenkins_job")
    | some jobName =>
      let branch_name := d.git_branch.getD "master"
      let job0 := w.jenkinsJob jobName
      let job := if job0.hasChildJobs then job0.childJob branch_name
                 else job0.mainJob
      match firstBranchBuild job branch_name with
      | none => .error (.valueError "Branch build could not be found")
      | some (build, branch_build) =>
        if (branch_build.branchNames.dedup).length > 1 then
          .error (.valueError "Latest build is caused by merge request")
        else
          let staleCheck : Except TaskExc Unit :=
            if d.jenkins_git.getD true then
              if w.isUpToDate branch_build.sha1 branch_name then .ok ()
              else .error
                (.valueError "Latest build is stale compared to Git repository")
            else .ok ()
          match staleCheck with
          | .error e => .error e
          | .ok _ =>
            if build.building then .error (.valueError "Build is not complete")
            else
              let states := d.jenkins_states.getD ["SUCCESS"]
              if states.contains build.result then .ok build
              else
                .error (.valueError
                  ("Build result was not " ++ String.intercalate " or " states
                    ++ ", but " ++ build.result))

namespace Deploy_Task

/-- `Deploy_Task._add_artifacts`: fail when the build declares no artifacts,
otherwise announce the collection and fetch every artifact in order. -/
def addArtifactsM (w : World) (b : Build) : M Unit :=
  if b.artifacts.getD [] = [] then
    liftE (.error (.runtimeError "Jenkins build has no artifacts"))
  else
    M.bind (publishM .progress "Collecting artifacts") fun _ =>
      seqList (b.artifacts.getD []) fun path =>
        M.bind (publishM .progress ("Collecting artifact " ++ path)) fun _ =>
          liftE (w.artifactFetch path)

/-- `Deploy_Task._add_secret_files`: write every secret with a non-empty
name; an `IOError` is re-raised as a `RuntimeError`. -/
def addSecretFilesM (w : World) (d : Deployment) : M Unit :=
  M.bind (publishM .progress "Writing secret files") fun _ =>
    seqList (d.secret_files.getD []) fun sec =>
      if sec.1 ≠ "" then
        match w.secretWrite sec.1 sec.2 with
        | none => M.pure ()
        | some ioMsg =>
          liftE (.error (.runtimeError ("Could not write secret file: " ++ ioMsg)))
      else M.pure ()

/-- `Deploy_Task._update_bigboat`: require a `bigboat_key`; skip when the
two compose files did not change between the previous and current HEAD;
otherwise register the application if needed, upload both compose files and
request the instance update. -/
def updateBigboatM (w : World) (d : Deployment) : M Unit :=
  if d.bigboat_key.getD "" = "" then
    liftE (.error (.valueError "BigBoat API key required to update BigBoat"))
  else if w.composeUnchanged then
    publishM .progress "BigBoat compose files were unchanged, skipping."
  else
    M.bind (publishM .progress "Updating BigBoat compose files") fun _ =>
      M.bind (if ¬ w.appExists then
                if ¬ w.registerAppOk then
                  liftE (.error (.runtimeError "Cannot register application"))
                else M.pure ()
              else M.pure ()) fun _ =>
        M.bind (seqList ["dockerCompose", "bigboatCompose"] fun apiName =>
                  if ¬ w.updateComposeOk apiName then
                    liftE (.error (.runtimeError "Cannot update compose file"))
                  else M.pure ()) fun _ =>
          publishM .progress "Updating BigBoat instances"

/-- The body of `Deploy_Task._deploy` up to (excluding) the terminal
`success` publish: CI check, source refresh, artifact copy, secret files,
script, service restarts and the BigBoat update, in source order. -/
def deployBody (d : Deployment) (w : World) : M Unit :=
  M.bind (if d.jenkins_job.getD "" ≠ "" then
            M.bind (publishM .progress "Checking Jenkins build state") fun _ =>
              M.bind (liftE (check_jenkins d w)) fun b => M.pure (some b)
          else M.pure none) fun last_build =>
    M.bind (publishM .progress "Updating Git repository") fun _ =>
      M.bind (liftE (getSource d)) fun _ =>
        M.bind (liftKey "git_path" d.git_path) fun _ =>
          M.bind (liftE w.gitRefresh) fun _ =>
            M.bind (match last_build with
                    | some b =>
                      if d.artifacts.getD false then addArtifactsM w b
                      else M.pure ()
                    | none => M.pure ()) fun _ =>
              M.bind (addSecretFilesM w d) fun _ =>
                M.bind (if d.script.getD "" ≠ "" then
                          M.bind (publishM .progress
                              ("Runnning script " ++ d.script.getD "")) fun _ =>
                            match w.scriptResult with
                            | none => M.pure ()
                            | some out =>
                              liftE (.error (.runtimeError
                                ("Could not run script " ++ d.script.getD ""
                                  ++ ": " ++ out)))
                        else M.pure ()) fun _ =>
                  M.bind (liftKey "services" d.services) fun services =>
                    M.bind (seqList services fun service =>
                              if service ≠ "" then
                                M.bind (publishM .progress
                                    ("Restarting service " ++ service)) fun _ =>
                                  if w.serviceRestartOk service then M.pure ()
                                  else
                                    liftE (.error (.runtimeError
                                      ("Could not restart service " ++ service)))
                              else M.pure ()) fun _ =>
                      if d.bigboat_url.getD "" ≠ "" then updateBigboatM w d
                      else M.pure ()

/-- `Deploy_Task._deploy`: the pipeline body followed by the terminal
`success` publish. -/
def deployM (d : Deployment) (w : World) : M Unit :=
  M.bind (deployBody d w) fun _ => publishM .success "Finished deployment"

/-- `try ... except` over a task computation. -/
def tryCatchM {α : Type} (ma : M α) (handle : TaskExc → M α) : M α :=
  fun sa n =>
    let o := ma sa n
    match o.res with
    | .ok _ => o
    | .error e =>
      let o2 := handle e sa (n + o.pubs)
      ⟨o2.res, o.pubs + o2.pubs, o.evs ++ o2.evs⟩

/-- `Deploy_Task.run`: `Thread_Interrupt` exits silently, `RuntimeError` and
`ValueError` publish a terminal `error` event (itself a `_publish`, so it is
suppressed by a set stop flag), anything else propagates out of the
thread. -/
def runM (d : Deployment) (w : World) : M Unit :=
  tryCatchM (deployM d w) fun e =>
    match e with
    | .interrupt => M.pure ()
    | .valueError msg => publishM .error msg
    | .runtimeError msg => publishM .error msg
    | e => liftE (.error e)

end Deploy_Task

namespace Deploy_Task

/-- All events a computation can deliver carry the `progress` state. -/
def ProgOnly {α : Type} (m : M α) : Prop :=
  ∀ sa n, ∀ ev ∈ (m sa n).evs, ev.state = EvState.progress

/-- Event accounting: a computation delivers at most one event per publish
attempt, and delivers nothing from attempt index `k` on once the stop flag
is set at `k`. -/
def PubWF {α : Type} (m : M α) : Prop :=
  ∀ sa n, (m sa n).evs.length ≤ (m sa n).pubs ∧
    ∀ k, sa = some k → (m sa n).evs.length ≤ k - n

theorem progOnly_pure {α : Type} (a : α) : ProgOnly (M.pure a) := by
  intro sa n ev hev
  simp [M.pure] at hev

theorem progOnly_liftE {α : Type} (e : Except TaskExc α) : ProgOnly (liftE e) := by
  intro sa n ev hev
  simp [liftE] at hev

theorem progOnly_liftKey {α : Type} (k : String) (v : Option α) :
    ProgOnly (liftKey k v) := by
  cases v <;> exact progOnly_liftE _

theorem progOnly_publish (msg : String) :
    ProgOnly (publishM .progress msg) := by
  intro sa n ev hev
  unfold publishM at hev
  by_cases hs : stopSeen sa n
  · simp [hs] at hev
  · simp [hs] at hev
    simp [hev]

theorem progOnly_bind {α β : Type} {ma : M α} {f : α → M β}
    (h1 : ProgOnly ma) (h2 : ∀ a, ProgOnly (f a)) :
    ProgOnly (M.bind ma f) := by
  intro sa n ev hev
  unfold M.bind at hev
  cases hres : (ma sa n).res with
  | error e =>
    simp only [hres] at hev
    exact h1 sa n ev hev
  | ok a =>
    simp only [hres, List.mem_append] at hev
    rcases hev with h | h
    · exact h1 sa n ev h
    · exact h2 a sa (n + (ma sa n).pubs) ev h

theorem progOnly_seqList {α : Type} {f : α → M Unit} (l : List α)
    (h : ∀ a, ProgOnly (f a)) : ProgOnly (seqList l f) := by
  induction l with
  | nil => exact progOnly_pure ()
  | cons x xs ih => exact progOnly_bind (h x) fun _ => ih

theorem progOnly_addArtifacts (w : World) (b : Build) :
    ProgOnly (addArtifactsM w b) := by
  unfold addArtifactsM
  split
  · exact progOnly_liftE _
  · exact progOnly_bind (progOnly_publish _) fun _ =>
      progOnly_seqList _ fun p =>
        progOnly_bind (progOnly_publish _) fun _ => progOnly_liftE _

theorem progOnly_addSecretFiles (w : World) (d : Deployment) :
    ProgOnly (addSecretFilesM w d) := by
  unfold addSecretFilesM
  refine progOnly_bind (progOnly_publish _) fun _ =>
    progOnly_seqList _ fun sec => ?_
  split
  · split
    · exact progOnly_pure ()
    · exact progOnly_liftE _
  · exact progOnly_pure ()

theorem progOnly_updateBigboat (w : World) (d : Deployment) :
    ProgOnly (updateBigboatM w d) := by
  unfold updateBigboatM
  split
  · exact progOnly_liftE _
  · split
    · exact progOnly_publish _
    · refine progOnly_bind (progOnly_publish _) fun _ => ?_
      refine progOnly_bind ?_ fun _ => ?_
      · split
        · split
          · exact progOnly_liftE _
          · exact progOnly_pure ()
        · exact progOnly_pure ()
      · refine progOnly_bind ?_ fun _ => progOnly_publish _
        refine progOnly_seqList _ fun apiName => ?_
        split
        · exact progOnly_liftE _
        · exact progOnly_pure ()

theorem progOnly_deployBody (d : Deployment) (w : World) :
    ProgOnly (deployBody d w) := by
  unfold deployBody
  refine progOnly_bind ?_ fun last_build => ?_
  · split
    · exact progOnly_bind (progOnly_publish _) fun _ =>
        progOnly_bind (progOnly_liftE _) fun b => progOnly_pure _
    · exact progOnly_pure _
  · refine progOnly_bind (progOnly_publish _) fun _ => ?_
    refine progOnly_bind (progOnly_liftE _) fun _ => ?_
    refine progOnly_bind (progOnly_liftKey _ _) fun _ => ?_
    refine progOnly_bind (progOnly_liftE _) fun _ => ?_
    refine progOnly_bind ?_ fun _ => ?_
    · match last_build with
      | some b =>
        dsimp only
        split
        · exact progOnly_addArtifacts w b
        · exact progOnly_pure ()
      | none => exact progOnly_pure ()
    · refine progOnly_bind (progOnly_addSecretFiles w d) fun _ => ?_
      refine progOnly_bind ?_ fun _ => ?_
      · split
        · refine progOnly_bind (progOnly_publish _) fun _ => ?_
          split
          · exact progOnly_pure ()
          · exact progOnly_liftE _
        · exact progOnly_pure ()
      · refine progOnly_bind (progOnly_liftKey _ _) fun services => ?_
        refine progOnly_bind ?_ fun _ => ?_
        · refine progOnly_seqList _ fun service => ?_
          split
          · refine progOnly_bind (progOnly_publish _) fun _ => ?_
            split
            · exact progOnly_pure ()
            · exact progOnly_liftE _
          · exact progOnly_pure ()
        · split
          · exact progOnly_updateBigboat w d
          · exact progOnly_pure ()

/-- When `_deploy` raises, every event it delivered was a `progress` event:
the only non-`progress` publish is the terminal `success`, which ends the
computation normally when delivered. -/
theorem deployM_error_progress (d : Deployment) (w : World) (sa : Option Nat)
    (n : Nat) (e : TaskExc) (h : (deployM d w sa n).res = .error e) :
    ∀ ev ∈ (deployM d w sa n).evs, ev.state = EvState.progress := by
  intro ev hev
  unfold deployM at h hev
  unfold M.bind at h hev
  cases hres : (deployBody d w sa n).res with
  | error e' =>
    simp only [hres] at hev
    exact progOnly_deployBody d w sa n ev hev
  | ok a =>
    simp only [hres, List.mem_append] at hev
    rcases hev with hmem | hmem
    · exact progOnly_deployBody d w sa n ev hmem
    · exfalso
      simp only [hres] at h
      unfold publishM at h hmem
      by_cases hs : stopSeen sa (n + (deployBody d w sa n).pubs)
      · simp [hs] at hmem
      · simp [hs] at h

theorem pubWF_pure {α : Type} (a : α) : PubWF (M.pure a) := by
  intro sa n
  simp [M.pure]

theorem pubWF_liftE {α : Type} (e : Except TaskExc α) : PubWF (liftE e) := by
  intro sa n
  simp [liftE]

theorem pubWF_liftKey {α : Type} (k : String) (v : Option α) :
    PubWF (liftKey k v) := by
  cases v <;> exact pubWF_liftE _

theorem pubWF_publish (st : EvState) (msg : String) :
    PubWF (publishM st msg) := by
  intro sa n
  unfold publishM
  by_cases hs : stopSeen sa n
  · simp [hs]
  · simp only [hs, if_false]
    refine ⟨by simp, fun k hk => ?_⟩
    subst hk
    simp only [stopSeen, decide_eq_true_eq] at hs
    show 1 ≤ k - n
    omega

theorem pubWF_bind {α β : Type} {ma : M α} {f : α → M β}
    (h1 : PubWF ma) (h2 : ∀ a, PubWF (f a)) : PubWF (M.bind ma f) := by
  intro sa n
  unfold M.bind
  cases hres : (ma sa n).res with
  | error e =>
    simpa only [hres] using h1 sa n
  | ok a =>
    simp only [hres]
    obtain ⟨a1, b1⟩ := h1 sa n
    obtain ⟨a2, b2⟩ := h2 a sa (n + (ma sa n).pubs)
    constructor
    · simp only [List.length_append]
      omega
    · intro k hk
      have c1 := b1 k hk
      have c2 := b2 k hk
      simp only [List.length_append]
      omega

theorem pubWF_seqList {α : Type} {f : α → M Unit} (l : List α)
    (h : ∀ a, PubWF (f a)) : PubWF (seqList l f) := by
  induction l with
  | nil => exact pubWF_pure ()
  | cons x xs ih => exact pubWF_bind (h x) fun _ => ih

theorem pubWF_tryCatch {α : Type} {ma : M α} {handle : TaskExc → M α}
    (h1 : PubWF ma) (h2 : ∀ e, PubWF (handle e)) :
    PubWF (tryCatchM ma handle) := by
  intro sa n
  unfold tryCatchM
  cases hres : (ma sa n).res with
  | ok a =>
    simpa only [hres] using h1 sa n
  | error e =>
    simp only [hres]
    obtain ⟨a1, b1⟩ := h1 sa n
    obtain ⟨a2, b2⟩ := h2 e sa (n + (ma sa n).pubs)
    constructor
    · simp only [List.length_append]
      omega
    · intro k hk
      have c1 := b1 k hk
      have c2 := b2 k hk
      simp only [List.length_append]
      omega

theorem pubWF_addArtifacts (w : World) (b : Build) :
    PubWF (addArtifactsM w b) := by
  unfold addArtifactsM
  split
  · exact pubWF_liftE _
  · exact pubWF_bind (pubWF_publish _ _) fun _ =>
      pubWF_seqList _ fun p =>
        pubWF_bind (pubWF_publish _ _) fun _ => pubWF_liftE _

theorem pubWF_addSecretFiles (w : World) (d : Deployment) :
    PubWF (addSecretFilesM w d) := by
  unfold addSecretFilesM
  refine pubWF_bind (pubWF_publish _ _) fun _ =>
    pubWF_seqList _ fun sec => ?_
  split
  · split
    · exact pubWF_pure ()
    · exact pubWF_liftE _
  · exact pubWF_pure ()

theorem pubWF_updateBigboat (w : World) (d : Deployment) :
    PubWF (updateBigboatM w d) := by
  unfold updateBigboatM
  split
  · exact pubWF_liftE _
  · split
    · exact pubWF_publish _ _
    · refine pubWF_bind (pubWF_publish _ _) fun _ => ?_
      refine pubWF_bind ?_ fun _ => ?_
      · split
        · split
          · exact pubWF_liftE _
          · exact pubWF_pure ()
        · exact pubWF_pure ()
      · refine pubWF_bind ?_ fun _ => pubWF_publish _ _
        refine pubWF_seqList _ fun apiName => ?_
        split
        · exact pubWF_liftE _
        · exact pubWF_pure ()

theorem pubWF_deployBody (d : Deployment) (w : World) :
    PubWF (deployBody d w) := by
  unfold deployBody
  refine pubWF_bind ?_ fun last_build => ?_
  · split
    · exact pubWF_bind (pubWF_publish _ _) fun _ =>
        pubWF_bind (pubWF_liftE _) fun b => pubWF_pure _
    · exact pubWF_pure _
  · refine pubWF_bind (pubWF_publish _ _) fun _ => ?_
    refine pubWF_bind (pubWF_liftE _) fun _ => ?_
    refine pubWF_bind (pubWF_liftKey _ _) fun _ => ?_
    refine pubWF_bind (pubWF_liftE _) fun _ => ?_
    refine pubWF_bind ?_ fun _ => ?_
    · match last_build with
      | some b =>
        dsimp only
        split
        · exact pubWF_addArtifacts w b
        · exact pubWF_pure ()
      | none => exact pubWF_pure ()
    · refine pubWF_bind (pubWF_addSecretFiles w d) fun _ => ?_
      refine pubWF_bind ?_ fun _ => ?_
      · split
        · refine pubWF_bind (pubWF_publish _ _) fun _ => ?_
          split
          · exact pubWF_pure ()
          · exact pubWF_liftE _
        · exact pubWF_pure ()
      · refine pubWF_bind (pubWF_liftKey _ _) fun services => ?_
        refine pubWF_bind ?_ fun _ => ?_
        · refine pubWF_seqList _ fun service => ?_
          split
          · refine pubWF_bind (pubWF_publish _ _) fun _ => ?_
            split
            · exact pubWF_pure ()
            · exact pubWF_liftE _
          · exact pubWF_pure ()
        · split
          · exact pubWF_updateBigboat w d
          · exact pubWF_pure ()

theorem pubWF_deployM (d : Deployment) (w : World) : PubWF (deployM d w) :=
  pubWF_bind (pubWF_deployBody d w) fun _ => pubWF_publish _ _

theorem pubWF_runM (d : Deployment) (w : World) : PubWF (runM d w) := by
  refine pubWF_tryCatch (pubWF_deployM d w) fun e => ?_
  cases e with
  | interrupt => exact pubWF_pure ()
  | valueError msg => exact pubWF_publish _ _
  | runtimeError msg => exact pubWF_publish _ _
  | keyError k => exact pubWF_liftE _
  | ioError m => exact pubWF_liftE _

end Deploy_Task

/-! ## Concrete material for witnesses -/

/-- A branch job with no builds. -/
def emptyBranchJob : BranchJob := ⟨fun _ => none⟩

/-- A plain (non-multibranch) Jenkins job with no builds. -/
def emptyJenkinsJob : JenkinsJob :=
  ⟨false, fun _ => emptyBranchJob, emptyBranchJob⟩

/-- A world where every external call succeeds and nothing changed. -/
def okWorld : World :=
  ⟨fun _ => emptyJenkinsJob, fun _ _ => true, .ok (), fun _ => .ok (),
   fun _ _ => none, none, fun _ => true, true, true, true, fun _ => true⟩

/-- A deployment snapshot holding only a name: `git_url` is absent, so
`get_source` raises `ValueError` on the first pipeline step touching it. -/
def bareDeployment : Deployment := { name := "t" }

/-! ## Claims -/

/-- Claim C1: a `deploy` POST for a known name whose progress entry holds a
non-nil worker leaves the registry unchanged, constructs and starts no
`Deploy_Task`, and answers with the "already underway" error page; and a
POST starts a task only when the current worker handle for that name is nil,
so the single per-name registry slot never holds a second live worker. -/
theorem deploy_single_flight (dps : List String) (m : Deployer.PMap)
    (name : String) (tid : Nat) (hmem : dps.contains name = true) :
    (∀ t, Deployer.workerOf m name = some t →
      Deployer.deploy dps m true name tid = (m, .alreadyUnderway, false)) ∧
    ((Deployer.deploy dps m true name tid).2.2 = true →
      Deployer.workerOf m name = none) := by
  have hride : Deployer.deploy dps m true name tid =
      match Deployer.workerOf m name with
      | some _ => (m, .alreadyUnderway, false)
      | none =>
        (dictSet m name (Deployer.Progress.mk "starting" "Thread is starting"
          (some tid)), .started, true) := by
    have hm : name ∈ dps := by simpa using hmem
    unfold Deployer.deploy Deployer.workerOf
    simp [hm]
  constructor
  · intro t ht
    rw [hride, ht]
  · intro hstart
    cases hw : Deployer.workerOf m name with
    | none => rfl
    | some t =>
      rw [hride, hw] at hstart
      simp at hstart

/-- Witness for C1 at a concrete registry: a worker is registered for `"x"`,
so the POST is refused and nothing changes. -/
theorem deploy_single_flight_witness :
    Deployer.deploy ["x"] [("x", Deployer.Progress.mk "progress" "m" (some 3))]
      true "x" 7 =
    ([("x", Deployer.Progress.mk "progress" "m" (some 3))],
      .alreadyUnderway, false) :=
  (deploy_single_flight ["x"]
    [("x", Deployer.Progress.mk "progress" "m" (some 3))] "x" 7
    (by decide)).1 3 (by decide)

/-- Claim C6: a `deploy(name, state, message)` event overwrites the progress
entry for `name` with that state and message; the worker handle is dropped
when the state is `success` or `error` and carried over otherwise; entries
of other names are untouched, and the terminal state and message remain
stored for later observers. -/
theorem set_deploy_progress_spec (m : Deployer.PMap)
    (name st msg : String) (old : Deployer.Progress)
    (h : lookupD m name = some old) :
    ∃ m', Deployer.set_deploy_progress m name st msg = some m' ∧
      lookupD m' name = some (Deployer.Progress.mk st msg
        (if st = "success" ∨ st = "error" then none else old.thread)) ∧
      ∀ k, k ≠ name → lookupD m' k = lookupD m k := by
  unfold Deployer.set_deploy_progress
  rw [h]
  by_cases hterm : st = "success" ∨ st = "error"
  · refine ⟨dictSet m name (Deployer.Progress.mk st msg none), ?_, ?_, ?_⟩
    · simp [hterm]
    · simp [hterm, dictSet_lookup_self]
    · intro k hk
      exact dictSet_lookup_other _ _ _ _ hk
  · refine ⟨dictSet m name (Deployer.Progress.mk st msg old.thread), ?_, ?_, ?_⟩
    · simp [hterm]
    · simp [hterm, dictSet_lookup_self]
    · intro k hk
      exact dictSet_lookup_other _ _ _ _ hk

/-- Witness for C6: a `success` event on a concrete registry drops the
worker handle and keeps the message. -/
theorem set_deploy_progress_witness :
    ∃ m', Deployer.set_deploy_progress
        [("x", Deployer.Progress.mk "starting" "Thread is starting" (some 5))]
        "x" "success" "Finished deployment" = some m' ∧
      lookupD m' "x" = some (Deployer.Progress.mk "success"
        "Finished deployment"
        (if "success" = "success" ∨ "success" = "error" then none
          else some 5)) ∧
      ∀ k, k ≠ "x" → lookupD m' k =
        lookupD [("x", Deployer.Progress.mk "starting" "Thread is starting"
          (some 5))] k :=
  set_deploy_progress_spec
    [("x", Deployer.Progress.mk "starting" "Thread is starting" (some 5))]
    "x" "success" "Finished deployment"
    (Deployer.Progress.mk "starting" "Thread is starting" (some 5))
    (by decide)

/-- Claim C4: once the stop flag is set — visible from publish attempt `k`
on — the task delivers no further event to the bus: at most the `k` events
of the attempts before the flag was set ever appear, and in particular no
terminal `success` or `error` record is published after the flag is set. -/
theorem stop_halts_publishing (d : Deployment) (w : World) (k : Nat) :
    (Deploy_Task.runM d w (some k) 0).evs.length ≤ k := by
  have h := (Deploy_Task.pubWF_runM d w (some k) 0).2 k rfl
  simpa using h

/-- Claim C8 (code bug): a POST to `edit` that omits `old_name` is answered
with HTTP 404 `Deployment None does not exist` — `_find_deployment(None)`
raises `KeyError` and is mapped to 404 — not with the HTTP 400 for a
missing required POST parameter that the specification (and the test suite)
prescribe. -/
theorem edit_post_missing_old_name (dps : List String) (n : String) :
    Deployer.edit dps (some n) none true =
      .httpError 404 "Deployment None does not exist" := rfl

/-- Claim C3: when a pipeline step of an (unstopped) run raises one of the
pipeline errors — surfaced as `ValueError` or `RuntimeError` — `run()`
appends exactly one terminal `error` event carrying that error's message to
the events already published, executes no further pipeline step, and returns
normally. -/
theorem run_single_error (d : Deployment) (w : World) (msg : String)
    (h : (Deploy_Task.deployM d w none 0).res = .error (.valueError msg) ∨
         (Deploy_Task.deployM d w none 0).res = .error (.runtimeError msg)) :
    (Deploy_Task.runM d w none 0).evs
        = (Deploy_Task.deployM d w none 0).evs
          ++ [Event.mk EvState.error msg] ∧
    ((Deploy_Task.runM d w none 0).evs.countP
        (fun ev => ev.state == EvState.success
          || ev.state == EvState.error)) = 1 ∧
    (Deploy_Task.runM d w none 0).res = .ok () := by
  have hprog : ∀ ev ∈ (Deploy_Task.deployM d w none 0).evs,
      ev.state = EvState.progress := by
    rcases h with h | h
    · exact Deploy_Task.deployM_error_progress d w none 0 _ h
    · exact Deploy_Task.deployM_error_progress d w none 0 _ h
  have hrun : Deploy_Task.runM d w none 0 =
      ⟨.ok (), (Deploy_Task.deployM d w none 0).pubs + 1,
        (Deploy_Task.deployM d w none 0).evs
          ++ [Event.mk EvState.error msg]⟩ := by
    unfold Deploy_Task.runM Deploy_Task.tryCatchM
    rcases h with h | h <;>
      simp [h, publishM, stopSeen]
  refine ⟨by rw [hrun], ?_, by rw [hrun]⟩
  rw [hrun]
  have h0 : (Deploy_Task.deployM d w none 0).evs.countP
      (fun ev => ev.state == EvState.success
        || ev.state == EvState.error) = 0 := by
    rw [List.countP_eq_zero]
    intro ev hev
    have hst := hprog ev hev
    simp [hst]
  simp [List.countP_append, h0, List.countP_cons]

/-- Witness for C3: a deployment lacking `git_url` fails with the
`Misconfigured` `ValueError` at the source-refresh step, after the single
`Updating Git repository` progress event; `run()` publishes exactly the
error record. -/
theorem run_single_error_witness :
    ((Deploy_Task.deployM bareDeployment okWorld none 0).res
        = .error (.valueError "Cannot retrieve Git repository: misconfiguration")) ∧
    ((Deploy_Task.runM bareDeployment okWorld none 0).evs
        = (Deploy_Task.deployM bareDeployment okWorld none 0).evs
          ++ [Event.mk EvState.error
              "Cannot retrieve Git repository: misconfiguration"] ∧
    ((Deploy_Task.runM bareDeployment okWorld none 0).evs.countP
        (fun ev => ev.state == EvState.success
          || ev.state == EvState.error)) = 1 ∧
    (Deploy_Task.runM bareDeployment okWorld none 0).res = .ok ()) :=
  ⟨rfl, run_single_error bareDeployment okWorld _ (Or.inl rfl)⟩

/-- A snapshot with a CI job configured but no `git_url`, `git_path` or
`services`. -/
def ciOnlyDeployment : Deployment := { name := "x", jenkins_job := some "job" }

/-- A snapshot whose source is configured but whose `git_path` key (and
`services` key) is absent. -/
def noGitPathDeployment : Deployment :=
  { name := "y", git_url := some "u", deploy_key := some "k" }

/-- Counterexample to claim C10 as stated: this snapshot lacks both the
`git_path` and the `services` keys, yet its run publishes a terminal
`error` event (the CI check fails first with a `ValueError`, which `run()`
catches and reports), so "neither a success nor an error event is
published" does not hold for every snapshot lacking the keys. -/
theorem keyerror_claim_counterexample :
    ciOnlyDeployment.git_path = none ∧ ciOnlyDeployment.services = none ∧
    (Deploy_Task.runM ciOnlyDeployment okWorld none 0).evs =
      [Event.mk EvState.progress "Checking Jenkins build state",
       Event.mk EvState.error
         "Cannot retrieve Git repository: misconfiguration"] ∧
    (Deploy_Task.runM ciOnlyDeployment okWorld none 0).res = .ok () :=
  ⟨rfl, rfl, rfl, rfl⟩

/-- Claim C10 as amended: the `KeyError` from the unguarded reads of
`git_path` and `services` is not among the exceptions `run()` catches, so an
(unstopped) execution in which the pipeline raises a `KeyError` terminates
with that `KeyError` and publishes neither a `success` nor an `error`
event; in particular a snapshot lacking `git_path`, in a run whose earlier
steps raise no pipeline error (source configured, CI check skipped), raises
`KeyError` for `git_path`.  A snapshot lacking either key can still publish
a terminal `error` event when an earlier step fails. -/
theorem keyerror_uncaught :
    (∀ (d : Deployment) (w : World) (key : String),
      (Deploy_Task.deployM d w none 0).res = .error (.keyError key) →
      (Deploy_Task.runM d w none 0).res = .error (.keyError key) ∧
      ∀ ev ∈ (Deploy_Task.runM d w none 0).evs,
        ev.state = EvState.progress) ∧
    (∀ (d : Deployment) (w : World),
      d.git_path = none → d.git_url.isSome → d.deploy_key.isSome →
      d.jenkins_job.getD "" = "" →
      (Deploy_Task.deployM d w none 0).res = .error (.keyError "git_path")) := by
  constructor
  · intro d w key h
    have hprog := Deploy_Task.deployM_error_progress d w none 0 _ h
    have hrun : Deploy_Task.runM d w none 0 =
        ⟨.error (.keyError key), (Deploy_Task.deployM d w none 0).pubs + 0,
          (Deploy_Task.deployM d w none 0).evs ++ []⟩ := by
      unfold Deploy_Task.runM Deploy_Task.tryCatchM
      simp [h, liftE]
    constructor
    · rw [hrun]
    · rw [hrun]
      simpa using hprog
  · intro d w hgp hgu hdk hjj
    rcases Option.isSome_iff_exists.mp hgu with ⟨u, hu⟩
    rcases Option.isSome_iff_exists.mp hdk with ⟨dk, hdke⟩
    unfold Deploy_Task.deployM Deploy_Task.deployBody
    simp [hjj, M.bind, M.pure, publishM, stopSeen, liftE, liftKey, getSource,
      hu, hdke, hgp]

/-- Witness for the amended C10 at a concrete snapshot lacking `git_path`:
the pipeline raises `KeyError 'git_path'`, `run()` rethrows it, and only
`progress` events were published. -/
theorem keyerror_uncaught_witness :
    ((Deploy_Task.deployM noGitPathDeployment okWorld none 0).res
        = .error (.keyError "git_path")) ∧
    ((Deploy_Task.runM noGitPathDeployment okWorld none 0).res
        = .error (.keyError "git_path") ∧
      ∀ ev ∈ (Deploy_Task.runM noGitPathDeployment okWorld none 0).evs,
        ev.state = EvState.progress) :=
  ⟨keyerror_uncaught.2 noGitPathDeployment okWorld rfl rfl rfl rfl,
   keyerror_uncaught.1 noGitPathDeployment okWorld "git_path"
     (keyerror_uncaught.2 noGitPathDeployment okWorld rfl rfl rfl rfl)⟩

/-- Claim C2: behaviour of `check_jenkins` for a deployment with a resolvable
source and a non-empty `jenkins_job`.  The branch keys `git_branch` and
`'origin/' + git_branch` are scanned in that order and the first yielding a
build wins; a build recording more than one distinct branch name is rejected
as caused by a merge request; the upstream-HEAD comparison (the "stale"
rejection) happens if and only if `jenkins_git` is truthy — when it is
falsy the upstream state is never consulted; when no key yields a build the
check fails with "Branch build could not be found"; a still-building build
is rejected; a result outside `jenkins_states` is rejected naming the
observed result; otherwise the winning build is returned. -/
theorem check_jenkins_spec (d : Deployment) (w : World) (j u dk br : String)
    (job : BranchJob)
    (hj : d.jenkins_job = some j) (hjne : j ≠ "")
    (hu : d.git_url = some u) (hdk : d.deploy_key = some dk)
    (hbr : br = d.git_branch.getD "master")
    (hjob : job = (if (w.jenkinsJob j).hasChildJobs then
        (w.jenkinsJob j).childJob br else (w.jenkinsJob j).mainJob)) :
    (∀ p, job.lastBranchBuild br = some p →
      firstBranchBuild job br = some p) ∧
    (job.lastBranchBuild br = none →
      firstBranchBuild job br = job.lastBranchBuild ("origin/" ++ br)) ∧
    (firstBranchBuild job br = none →
      check_jenkins d w
        = .error (.valueError "Branch build could not be found")) ∧
    (∀ b bb, firstBranchBuild job br = some (b, bb) →
      (bb.branchNames.dedup.length > 1 →
        check_jenkins d w
          = .error (.valueError "Latest build is caused by merge request")) ∧
      (bb.branchNames.dedup.length ≤ 1 →
        (d.jenkins_git.getD true = true → w.isUpToDate bb.sha1 br = false →
          check_jenkins d w = .error
            (.valueError "Latest build is stale compared to Git repository")) ∧
        ((d.jenkins_git.getD true = false ∨ w.isUpToDate bb.sha1 br = true) →
          (b.building = true →
            check_jenkins d w = .error (.valueError "Build is not complete")) ∧
          (b.building = false →
            ((d.jenkins_states.getD ["SUCCESS"]).contains b.result = false →
              check_jenkins d w = .error (.valueError
                ("Build result was not "
                  ++ String.intercalate " or " (d.jenkins_states.getD ["SUCCESS"])
                  ++ ", but " ++ b.result))) ∧
            ((d.jenkins_states.getD ["SUCCESS"]).contains b.result = true →
              check_jenkins d w = .ok b))))) ∧
    (d.jenkins_git.getD true = false → ∀ f,
      check_jenkins d { w with isUpToDate := f } = check_jenkins d w) := by
  subst hbr
  subst hjob
  have hsrc : getSource d = .ok () := by simp [getSource, hu, hdk]
  have hred : check_jenkins d w =
      match firstBranchBuild
          (if (w.jenkinsJob j).hasChildJobs then
            (w.jenkinsJob j).childJob (d.git_branch.getD "master")
          else (w.jenkinsJob j).mainJob) (d.git_branch.getD "master") with
      | none => .error (.valueError "Branch build could not be found")
      | some (build, branch_build) =>
        if (branch_build.branchNames.dedup).length > 1 then
          .error (.valueError "Latest build is caused by merge request")
        else
          match (if d.jenkins_git.getD true then
                  if w.isUpToDate branch_build.sha1 (d.git_branch.getD "master")
                  then Except.ok ()
                  else Except.error (TaskExc.valueError
                    "Latest build is stale compared to Git repository")
                else Except.ok ()) with
          | .error e => .error e
          | .ok _ =>
            if build.building then
              .error (.valueError "Build is not complete")
            else
              if (d.jenkins_states.getD ["SUCCESS"]).contains build.result then
                .ok build
              else
                .error (.valueError ("Build result was not "
                  ++ String.intercalate " or "
                      (d.jenkins_states.getD ["SUCCESS"])
                  ++ ", but " ++ build.result)) := by
    unfold check_jenkins
    rw [hsrc, hj]
  refine ⟨?_, ?_, ?_, ?_, ?_⟩
  · intro p hp
    simp [firstBranchBuild, hp]
  · intro hn
    simp [firstBranchBuild, hn]
  · intro hn
    rw [hred, hn]
  · intro b bb hfound
    have hred2 : check_jenkins d w =
        if (bb.branchNames.dedup).length > 1 then
          .error (.valueError "Latest build is caused by merge request")
        else
          match (if d.jenkins_git.getD true then
                  if w.isUpToDate bb.sha1 (d.git_branch.getD "master")
                  then Except.ok ()
                  else Except.error (TaskExc.valueError
                    "Latest build is stale compared to Git repository")
                else Except.ok ()) with
          | .error e => .error e
          | .ok _ =>
            if b.building then
              .error (.valueError "Build is not complete")
            else
              if (d.jenkins_states.getD ["SUCCESS"]).contains b.result then
                .ok b
              else
                .error (.valueError ("Build result was not "
                  ++ String.intercalate " or "
                      (d.jenkins_states.getD ["SUCCESS"])
                  ++ ", but " ++ b.result)) := by
      rw [hred, hfound]
    constructor
    · intro hlen
      rw [hred2, if_pos hlen]
    · intro hlen
      have hcond : ¬ ((bb.branchNames.dedup).length > 1) := by omega
      constructor
      · intro hjg hstale
        rw [hred2, if_neg hcond]
        simp [hjg, hstale]
      · intro hok
        have hstale_ok : (if d.jenkins_git.getD true then
            if w.isUpToDate bb.sha1 (d.git_branch.getD "master")
            then Except.ok ()
            else Except.error (TaskExc.valueError
              "Latest build is stale compared to Git repository")
          else Except.ok ()) = Except.ok () := by
          rcases hok with h | h <;> simp [h]
        refine ⟨?_, ?_⟩
        · intro hb
          rw [hred2, if_neg hcond, hstale_ok]
          simp [hb]
        · intro hb
          constructor
          · intro hres
            rw [hred2, if_neg hcond, hstale_ok]
            have hmem : b.result ∉ d.jenkins_states.getD ["SUCCESS"] := by
              simpa using hres
            simp [hb, hmem]
          · intro hres
            rw [hred2, if_neg hcond, hstale_ok]
            have hmem : b.result ∈ d.jenkins_states.getD ["SUCCESS"] := by
              simpa using hres
            simp [hb, hmem]
  · intro hjg f
    unfold check_jenkins
    rw [hsrc, hj]
    simp [hjg]

/-- A finished successful build. -/
def ciBuild : Build := ⟨false, "SUCCESS", none⟩

/-- A single-branch build record on `master`. -/
def ciBranchBuild : BranchBuild := ⟨"abcd1234", ["master"]⟩

/-- A branch job whose `master` key yields the successful build. -/
def ciBranchJob : BranchJob :=
  ⟨fun b => if b = "master" then some (ciBuild, ciBranchBuild) else none⟩

/-- A plain job resolving to `ciBranchJob`. -/
def ciJenkinsJob : JenkinsJob := ⟨false, fun _ => emptyBranchJob, ciBranchJob⟩

/-- `okWorld` with the CI job above. -/
def ciWorld : World := { okWorld with jenkinsJob := fun _ => ciJenkinsJob }

/-- A deployment with source and CI job configured. -/
def ciDeployment : Deployment :=
  { name := "t", git_url := some "u", deploy_key := some "k",
    jenkins_job := some "test-job" }

/-- Witness for C2: on the concrete job whose `master` branch carries a
finished single-branch `SUCCESS` build matching upstream, `check_jenkins`
returns that build. -/
theorem check_jenkins_spec_witness :
    check_jenkins ciDeployment ciWorld = .ok ciBuild :=
  (((((check_jenkins_spec ciDeployment ciWorld "test-job" "u" "k" "master"
      ciBranchJob rfl (by decide) rfl rfl rfl rfl).2.2.2.1
      ciBuild ciBranchBuild rfl).2 (by decide)).2 (Or.inr rfl)).2 rfl).2
      (by decide)

/-- Counterexample to claim C9 as stated: two arguments with equal names —
the bare string `"x"` and a dict carrying `name: "x"` plus an extra field —
make `add` produce different sets on the empty set, because a successful
`add` stores the argument's full configuration. -/
theorem name_dependence_counterexample :
    Deployments.argName (.byName (Value.vStr "x"))
      = Deployments.argName
          (.byDict [("name", Value.vStr "x"), ("foo", Value.vStr "1")]) ∧
    Deployments.add [] (.byName (Value.vStr "x"))
      = .ok [(Value.vStr "x", [("name", Value.vStr "x")])] ∧
    Deployments.add []
        (.byDict [("name", Value.vStr "x"), ("foo", Value.vStr "1")])
      = .ok [(Value.vStr "x",
          [("name", Value.vStr "x"), ("foo", Value.vStr "1")])] ∧
    [(Value.vStr "x", [("name", Value.vStr "x")])]
      ≠ [(Value.vStr "x",
          ([("name", Value.vStr "x"), ("foo", Value.vStr "1")] : Config))] :=
  ⟨rfl, rfl, rfl, by decide⟩

/-- Claim C9 as amended: membership, `get` and `discard` depend only on the
name of their argument; `add` depends only on the name whenever the name is
already present (the duplicate is ignored), and in general its decision to
insert — hence the resulting key sequence — depends only on the name, while
a successful insert stores the argument's full configuration. -/
theorem ops_depend_on_name (D : DepMap) (a1 a2 : DeployArg)
    (h : Deployments.argName a1 = Deployments.argName a2) :
    Deployments.contains D a1 = Deployments.contains D a2 ∧
    Deployments.get D a1 = Deployments.get D a2 ∧
    Deployments.discard D a1 = Deployments.discard D a2 ∧
    (∀ n, Deployments.argName a1 = some n →
      Deployments.containsName D n = true →
      Deployments.add D a1 = Deployments.add D a2) ∧
    (∀ n D1 D2, Deployments.argName a1 = some n →
      Deployments.add D a1 = .ok D1 → Deployments.add D a2 = .ok D2 →
      D1.map Prod.fst = D2.map Prod.fst) := by
  refine ⟨?_, ?_, ?_, ?_, ?_⟩
  · unfold Deployments.contains
    rw [h]
  · unfold Deployments.get
    rw [h]
  · unfold Deployments.discard
    rw [h]
  · intro n hn hc
    have hn2 : Deployments.argName a2 = some n := h.symm.trans hn
    unfold Deployments.add
    rw [hn, hn2]
    simp [hc]
  · intro n D1 D2 hn h1 h2
    have hn2 : Deployments.argName a2 = some n := h.symm.trans hn
    unfold Deployments.add at h1 h2
    rw [hn] at h1
    rw [hn2] at h2
    cases hc : Deployments.containsName D n with
    | true =>
      simp [hc] at h1 h2
      subst h1
      subst h2
      rfl
    | false =>
      simp [hc] at h1 h2
      subst h1
      subst h2
      simp

/-- Witness for the amended C9: `get` answers identically for the bare name
and for a dict with the same name and extra fields. -/
theorem ops_depend_on_name_witness :
    Deployments.get
        [(Value.vStr "x", [("name", Value.vStr "x"), ("foo", Value.vStr "1")])]
        (.byName (Value.vStr "x"))
      = Deployments.get
          [(Value.vStr "x",
            [("name", Value.vStr "x"), ("foo", Value.vStr "1")])]
          (.byDict [("name", Value.vStr "x"), ("bar", Value.vStr "2")]) :=
  (ops_depend_on_name
    [(Value.vStr "x", [("name", Value.vStr "x"), ("foo", Value.vStr "1")])]
    (.byName (Value.vStr "x"))
    (.byDict [("name", Value.vStr "x"), ("bar", Value.vStr "2")])
    rfl).2.1

theorem lookupD_of_mem_nodup {β : Type} {m : List (String × β)} {k : String}
    {v : β} (hm : (k, v) ∈ m) (hnd : (m.map Prod.fst).Nodup) :
    lookupD m k = some v := by
  induction m with
  | nil => cases hm
  | cons p rest ih =>
    have hnd' : p.1 ∉ rest.map Prod.fst ∧ (rest.map Prod.fst).Nodup := by
      have hnd2 := hnd
      rw [List.map_cons] at hnd2
      exact List.nodup_cons.mp hnd2
    rcases List.mem_cons.mp hm with heq | hm'
    · rw [← heq]
      simp [lookupD]
    · have hk : k ∈ rest.map Prod.fst := List.mem_map.mpr ⟨(k, v), hm', rfl⟩
      have hne : ¬ (p.1 = k) := fun he => hnd'.1 (by rw [he]; exact hk)
      simp only [lookupD, hne, if_false]
      exact ih hm' hnd'.2

theorem checkOldSecretsGo_nil_news (full : List (String × String))
    (l : List String) (acc : List (String × String)) :
    Deployer.checkOldSecretsGo full (zipLongest ([] : List String) l) acc
      = acc := by
  induction l with
  | nil => simp [zipLongest, Deployer.checkOldSecretsGo]
  | cons y ys ih => simpa [zipLongest, Deployer.checkOldSecretsGo] using ih

theorem checkOldSecretsGo_spec (full : List (String × String))
    (hnd : (full.map Prod.fst).Nodup) :
    ∀ (news : List String) (olds : List (String × String))
      (acc : List (String × String)),
      (∀ oc ∈ olds, oc ∈ full) →
      (news.filter (fun s => s != "")).Nodup →
      (∀ p ∈ acc, p.1 ∉ news.filter (fun s => s != "")) →
      Deployer.checkOldSecretsGo full
          (zipLongest news (olds.map Prod.fst)) acc
        = acc ++ Deployer.specSecretsZip news olds := by
  intro news
  induction news with
  | nil =>
    intro olds acc _ _ _
    rw [checkOldSecretsGo_nil_news]
    simp [Deployer.specSecretsZip]
  | cons n news' ih =>
    intro olds acc hsub hnodup hacc
    by_cases hn : n = ""
    · subst hn
      have hfeq : ((("" : String) :: news').filter (fun s => s != ""))
          = news'.filter (fun s => s != "") := by simp
      have hnodup' : (news'.filter (fun s => s != "")).Nodup := by
        rw [← hfeq]; exact hnodup
      have hacc' : ∀ p ∈ acc, p.1 ∉ news'.filter (fun s => s != "") :=
        fun p hp => by rw [← hfeq]; exact hacc p hp
      cases olds with
      | nil =>
        have hgo : Deployer.checkOldSecretsGo full
            (zipLongest (("" : String) :: news')
              (List.map Prod.fst ([] : List (String × String)))) acc
          = Deployer.checkOldSecretsGo full
              (zipLongest news'
                (List.map Prod.fst ([] : List (String × String)))) acc := by
          simp [zipLongest, Deployer.checkOldSecretsGo]
        rw [hgo, ih [] acc (by simp) hnodup' hacc']
        simp [Deployer.specSecretsZip]
      | cons oc olds' =>
        have hgo : Deployer.checkOldSecretsGo full
            (zipLongest (("" : String) :: news')
              (List.map Prod.fst (oc :: olds'))) acc
          = Deployer.checkOldSecretsGo full
              (zipLongest news' (List.map Prod.fst olds')) acc := by
          simp [zipLongest, Deployer.checkOldSecretsGo]
        rw [hgo,
          ih olds' acc (fun q hq => hsub q (List.mem_cons_of_mem _ hq))
            hnodup' hacc']
        simp [Deployer.specSecretsZip]
    · have hbne : ((n != "") = true) := by simpa using hn
      have hfeq : ((n :: news').filter (fun s => s != ""))
          = n :: news'.filter (fun s => s != "") :=
        List.filter_cons_of_pos hbne
      have hmemn : n ∈ (n :: news').filter (fun s => s != "") := by
        rw [hfeq]; exact List.mem_cons_self n _
      have hnodcons : n ∉ news'.filter (fun s => s != "") ∧
          (news'.filter (fun s => s != "")).Nodup := by
        have := hnodup
        rw [hfeq] at this
        exact List.nodup_cons.mp this
      have hne_acc : ∀ p ∈ acc, p.1 ≠ n :=
        fun p hp he => hacc p hp (he.symm ▸ hmemn)
      cases olds with
      | nil =>
        have hgo : Deployer.checkOldSecretsGo full
            (zipLongest (n :: news')
              (List.map Prod.fst ([] : List (String × String)))) acc
          = Deployer.checkOldSecretsGo full
              (zipLongest news'
                (List.map Prod.fst ([] : List (String × String))))
              (dictSet acc n "") := by
          simp [zipLongest, Deployer.checkOldSecretsGo, hn]
        have hds : dictSet acc n "" = acc ++ [(n, "")] :=
          dictSet_append acc n "" hne_acc
        have hacc' : ∀ p ∈ acc ++ [(n, "")],
            p.1 ∉ news'.filter (fun s => s != "") := by
          intro p hp
          rcases List.mem_append.mp hp with hpl | hpr
          · intro hc
            exact hacc p hpl (by rw [hfeq]; exact List.mem_cons_of_mem _ hc)
          · have : p = (n, "") := by simpa using hpr
            rw [this]
            exact hnodcons.1
        rw [hgo, hds, ih [] (acc ++ [(n, "")]) (by simp) hnodcons.2 hacc']
        simp [Deployer.specSecretsZip, hn]
      | cons oc olds' =>
        have hlk : lookupD full oc.1 = some oc.2 :=
          lookupD_of_mem_nodup (hsub oc (List.mem_cons_self oc olds')) hnd
        have hgo : Deployer.checkOldSecretsGo full
            (zipLongest (n :: news') (List.map Prod.fst (oc :: olds'))) acc
          = Deployer.checkOldSecretsGo full
              (zipLongest news' (List.map Prod.fst olds'))
              (dictSet acc n oc.2) := by
          simp [zipLongest, Deployer.checkOldSecretsGo, hn, hlk]
        have hds : dictSet acc n oc.2 = acc ++ [(n, oc.2)] :=
          dictSet_append acc n oc.2 hne_acc
        have hacc' : ∀ p ∈ acc ++ [(n, oc.2)],
            p.1 ∉ news'.filter (fun s => s != "") := by
          intro p hp
          rcases List.mem_append.mp hp with hpl | hpr
          · intro hc
            exact hacc p hpl (by rw [hfeq]; exact List.mem_cons_of_mem _ hc)
          · have : p = (n, oc.2) := by simpa using hpr
            rw [this]
            exact hnodcons.1
        rw [hgo, hds,
          ih olds' (acc ++ [(n, oc.2)])
            (fun q hq => hsub q (List.mem_cons_of_mem _ hq))
            hnodcons.2 hacc']
        simp [Deployer.specSecretsZip, hn]

/-- Claim C5: on POST-edit, the new `secret_files` mapping is the positional
zip of the incoming names against the old mapping — empty new names are
discarded, positions beyond the end of the old list get empty content,
positions present in both lists carry the old content at that position
forward, and old positions beyond the end of the new list drop out; and the
physical file at `git_path/old[i]` is removed for each old name exactly when
the new name list differs positionally from the old one.  (The hypotheses
state that the non-empty new names and the old keys are duplicate-free, as
dict keys and distinct destination files are.) -/
theorem check_old_secrets_spec (news : List String)
    (olds : List (String × String)) (path : String) (isfile : String → Bool)
    (hnews : (news.filter (fun s => s != "")).Nodup)
    (holds : (olds.map Prod.fst).Nodup) :
    Deployer.check_old_secrets news olds = Deployer.specSecretsZip news olds ∧
    (news ≠ olds.map Prod.fst →
      Deployer.removed_secret_files news olds path isfile
        = ((olds.map Prod.fst).map (pathJoin path)).filter isfile) ∧
    (news = olds.map Prod.fst →
      Deployer.removed_secret_files news olds path isfile = []) := by
  refine ⟨?_, ?_, ?_⟩
  · unfold Deployer.check_old_secrets
    simpa using
      checkOldSecretsGo_spec olds holds news olds [] (fun oc h => h) hnews
        (by simp)
  · intro hne
    unfold Deployer.removed_secret_files
    rw [if_pos (fun he => hne he.symm)]
  · intro he
    unfold Deployer.removed_secret_files
    rw [if_neg (fun hc : olds.map Prod.fst ≠ news => hc he.symm)]

/-- Witness for C5 on a concrete edit: names `["a", "", "b", "c"]` against
the old mapping `[("a","A"), ("x","X")]`. -/
theorem check_old_secrets_witness :
    Deployer.check_old_secrets ["a", "", "b", "c"] [("a", "A"), ("x", "X")]
      = Deployer.specSecretsZip ["a", "", "b", "c"] [("a", "A"), ("x", "X")] ∧
    (["a", "", "b", "c"] ≠ [("a", "A"), ("x", "X")].map Prod.fst →
      Deployer.removed_secret_files ["a", "", "b", "c"]
          [("a", "A"), ("x", "X")] "p" (fun _ => true)
        = (([("a", "A"), ("x", "X")].map Prod.fst).map
            (pathJoin "p")).filter (fun _ => true)) ∧
    (["a", "", "b", "c"] = [("a", "A"), ("x", "X")].map Prod.fst →
      Deployer.removed_secret_files ["a", "", "b", "c"]
          [("a", "A"), ("x", "X")] "p" (fun _ => true) = []) :=
  check_old_secrets_spec ["a", "", "b", "c"] [("a", "A"), ("x", "X")] "p"
    (fun _ => true) (by decide) (by decide)

/-- Default expansion never changes a field already present: its value (and
position, since existing pairs are untouched) survives. -/
theorem expandConfig_lookup_some :
    ∀ (flds : List (String × Option Value)) (c : Config) (key : String)
      (v : Value), lookupD c key = some v →
      lookupD (Deployments.expandConfig flds c) key = some v := by
  intro flds
  induction flds with
  | nil =>
    intro c key v h
    simpa [Deployments.expandConfig] using h
  | cons f flds ih =>
    intro c key v h
    unfold Deployments.expandConfig at ih ⊢
    simp only [List.foldl_cons]
    apply ih
    by_cases hc : (lookupD c f.1).isSome
    · simpa [hc] using h
    · have hne : key ≠ f.1 := by
        intro he
        rw [he] at h
        exact hc (by simp [h])
      rw [if_neg hc, dictSet_lookup_other c f.1 key _ hne]
      exact h

theorem findName_append_single (D : DepMap) (k : Value) (c : Config)
    (n : Value) :
    Deployments.findName (D ++ [(k, c)]) n
      = match Deployments.findName D n with
        | some r => some r
        | none => if k = n then some c else none := by
  induction D with
  | nil => simp [Deployments.findName]
  | cons p rest ih =>
    by_cases hp : p.1 = n
    · simp [Deployments.findName, hp]
    · simp [Deployments.findName, hp, ih]

/-- `Deployments.build` on configs that all carry pairwise-distinct names
not yet in the store appends every config under its name, in order. -/
theorem build_ok :
    ∀ (cs : List Config) (D : DepMap),
      (∀ c ∈ cs, (lookupD c "name").isSome) →
      (cs.map (fun c => (lookupD c "name").getD (Value.vStr ""))).Nodup →
      (∀ c ∈ cs, Deployments.containsName D
        ((lookupD c "name").getD (Value.vStr "")) = false) →
      Deployments.build cs D
        = .ok (D ++ cs.map
            (fun c => ((lookupD c "name").getD (Value.vStr ""), c))) := by
  intro cs
  induction cs with
  | nil =>
    intro D _ _ _
    simp [Deployments.build]
  | cons c cs' ih =>
    intro D hname hnd hfresh
    rcases Option.isSome_iff_exists.mp (hname c (List.mem_cons_self c cs'))
      with ⟨k, hk⟩
    have hkd : (lookupD c "name").getD (Value.vStr "") = k := by simp [hk]
    have hcont : Deployments.containsName D k = false := by
      rw [← hkd]
      exact hfresh c (List.mem_cons_self c cs')
    have hadd : Deployments.add D (.byDict c) = .ok (D ++ [(k, c)]) := by
      unfold Deployments.add Deployments.argName Deployments.convert
      simp [hk, hcont]
    have hnd' : (cs'.map
        (fun c => (lookupD c "name").getD (Value.vStr ""))).Nodup := by
      rw [List.map_cons] at hnd
      exact (List.nodup_cons.mp hnd).2
    have hknot : k ∉ cs'.map
        (fun c => (lookupD c "name").getD (Value.vStr "")) := by
      rw [List.map_cons, hkd] at hnd
      exact (List.nodup_cons.mp hnd).1
    have hfresh' : ∀ c' ∈ cs', Deployments.containsName (D ++ [(k, c)])
        ((lookupD c' "name").getD (Value.vStr "")) = false := by
      intro c' hc'
      have h1 : Deployments.containsName D
          ((lookupD c' "name").getD (Value.vStr "")) = false :=
        hfresh c' (List.mem_cons_of_mem _ hc')
      have h2 : k ≠ (lookupD c' "name").getD (Value.vStr "") := by
        intro he
        exact hknot (he ▸ List.mem_map.mpr ⟨c', hc', rfl⟩)
      unfold Deployments.containsName at h1 ⊢
      rw [findName_append_single]
      rcases hf : Deployments.findName D
          ((lookupD c' "name").getD (Value.vStr "")) with _ | r
      · simp [h2]
      · rw [hf] at h1
        simp at h1
    have hstep : Deployments.build (c :: cs') D
        = match Deployments.add D (.byDict c) with
          | .error e => .error e
          | .ok d' => Deployments.build cs' d' := rfl
    rw [hstep, hadd]
    show Deployments.build cs' (D ++ [(k, c)]) = _
    rw [ih (D ++ [(k, c)]) (fun c' hc' =>
        hname c' (List.mem_cons_of_mem _ hc')) hnd' hfresh']
    simp [hkd]

/-- Claim C7: writing a deployment set and reading it back against the
schema yields the set itself, with each stored config expanded by the
schema defaults for its missing fields (empty string when the field has no
default); every field present before the round trip — `secret_files` with
its key order included — keeps its value. -/
theorem deployments_round_trip (D : DepMap)
    (hname : ∀ p ∈ D, lookupD p.2 "name" = some p.1)
    (hnd : (D.map Prod.fst).Nodup) :
    Deployments.read (some (Deployments.write D)) Deployments.FIELDS
      = .ok (D.map (fun p =>
          (p.1, Deployments.expandConfig Deployments.FIELDS p.2))) ∧
    ∀ p ∈ D, ∀ key v, lookupD p.2 key = some v →
      lookupD (Deployments.expandConfig Deployments.FIELDS p.2) key
        = some v := by
  constructor
  · show Deployments.build ((D.map Prod.snd).map
        (Deployments.expandConfig Deployments.FIELDS)) [] = _
    have hexp : ∀ p ∈ D, lookupD
        (Deployments.expandConfig Deployments.FIELDS p.2) "name"
        = some p.1 :=
      fun p hp => expandConfig_lookup_some _ _ _ _ (hname p hp)
    have hmm : (D.map Prod.snd).map
        (Deployments.expandConfig Deployments.FIELDS)
        = D.map (fun p => Deployments.expandConfig Deployments.FIELDS p.2) := by
      rw [List.map_map]
      apply List.map_congr_left
      intro p _
      simp only [Function.comp_apply]
    have hgetd : ∀ p ∈ D, (lookupD
        (Deployments.expandConfig Deployments.FIELDS p.2) "name").getD
          (Value.vStr "") = p.1 := by
      intro p hp
      rw [hexp p hp]
      rfl
    have h1 : ∀ c ∈ D.map
        (fun p => Deployments.expandConfig Deployments.FIELDS p.2),
        (lookupD c "name").isSome := by
      intro c hc
      rcases List.mem_map.mp hc with ⟨p, hp, rfl⟩
      simp [hexp p hp]
    have h2 : ((D.map
        (fun p => Deployments.expandConfig Deployments.FIELDS p.2)).map
          (fun c => (lookupD c "name").getD (Value.vStr ""))).Nodup := by
      have heq : (D.map
          (fun p => Deployments.expandConfig Deployments.FIELDS p.2)).map
            (fun c => (lookupD c "name").getD (Value.vStr ""))
          = D.map Prod.fst := by
        rw [List.map_map]
        apply List.map_congr_left
        intro p hp
        simp only [Function.comp_apply]
        exact hgetd p hp
      rw [heq]
      exact hnd
    have h3 : ∀ c ∈ D.map
        (fun p => Deployments.expandConfig Deployments.FIELDS p.2),
        Deployments.containsName []
          ((lookupD c "name").getD (Value.vStr "")) = false :=
      fun c _ => rfl
    rw [hmm, build_ok _ _ h1 h2 h3]
    have hpayload : ([] ++ (D.map
        (fun p => Deployments.expandConfig Deployments.FIELDS p.2)).map
          (fun c => ((lookupD c "name").getD (Value.vStr ""), c)))
        = D.map (fun p =>
            (p.1, Deployments.expandConfig Deployments.FIELDS p.2)) := by
      rw [List.nil_append, List.map_map]
      apply List.map_congr_left
      intro p hp
      simp only [Function.comp_apply]
      rw [hgetd p hp]
    rw [hpayload]
  · intro p _ key v h
    exact expandConfig_lookup_some _ _ _ _ h

/-- Witness for C7 on a one-element set: a stored config with a name, a
non-default branch and an ordered `secret_files` mapping round trips into
itself plus the appended schema defaults. -/
theorem deployments_round_trip_witness :
    (∀ p ∈ ([(Value.vStr "a",
        [("name", Value.vStr "a"), ("git_branch", Value.vStr "main"),
         ("secret_files", Value.vMap [("s1", "x"), ("s0", "y")])])] : DepMap),
      lookupD p.2 "name" = some p.1) ∧
    (Deployments.read (some (Deployments.write
        [(Value.vStr "a",
          [("name", Value.vStr "a"), ("git_branch", Value.vStr "main"),
           ("secret_files", Value.vMap [("s1", "x"), ("s0", "y")])])]))
        Deployments.FIELDS
      = .ok ([(Value.vStr "a",
          [("name", Value.vStr "a"), ("git_branch", Value.vStr "main"),
           ("secret_files", Value.vMap [("s1", "x"), ("s0", "y")])])].map
            (fun p =>
              (p.1, Deployments.expandConfig Deployments.FIELDS p.2))) ∧
      ∀ p ∈ ([(Value.vStr "a",
          [("name", Value.vStr "a"), ("git_branch", Value.vStr "main"),
           ("secret_files", Value.vMap [("s1", "x"), ("s0", "y")])])] :
            DepMap),
        ∀ key v, lookupD p.2 key = some v →
          lookupD (Deployments.expandConfig Deployments.FIELDS p.2) key
            = some v) :=
  ⟨by decide,
   deployments_round_trip
     [(Value.vStr "a",
       [("name", Value.vStr "a"), ("git_branch", Value.vStr "main"),
        ("secret_files", Value.vMap [("s1", "x"), ("s0", "y")])])]
     (by decide) (by decide)⟩
